import Mathlib

/-!
Verification of the budget allocation optimizer
(`optimize_budget_with_weighted_quadratic_loss_custom_units`).

The source builds a CP-SAT model: per-category unit variables, effective
allocations `alloc = units * factor`, deviations `dev = alloc - current`,
squared deviations `quad = dev * dev`, a needs-sum equality, an income
partition equality and three hard percentage bounds, then minimizes
`sum(weights[cat] * quad[cat])` and extracts the allocations and the loss
on an OPTIMAL or FEASIBLE status.

The solver itself is an external collaborator; it is modelled by its
contract: an assignment it reports satisfies every posted constraint
(`Feasible`), a complete search reports OPTIMAL/FEASIBLE exactly when the
constraints are satisfiable, and an OPTIMAL assignment minimizes the
objective.  The hard-bound constants `int(0.2 * income)`,
`int(0.5 * income)`, `int(0.3 * income)` are computed by the source in
binary64 floating point; that computation is modelled exactly (`rnd` is
IEEE-754 round-to-nearest-ties-to-even on the binade mantissa).
-/

/-- Budget categories, in the order of the source's `categories` list. -/
inductive Cat
  | transport_expenditure
  | food_expenditure
  | housing_expenditure
  | insurance_expenditure
  | other_needs_expenditure
  | investment_expenditure
  | monthly_savings
  | total_needs
  | total_wants
deriving DecidableEq, Fintype

/-- Source `categories` list, in source order. -/
def Cat.all : List Cat :=
  [.transport_expenditure, .food_expenditure, .housing_expenditure, .insurance_expenditure,
   .other_needs_expenditure, .investment_expenditure, .monthly_savings, .total_needs, .total_wants]

/-- Five needs categories summed for `current_total_needs` and the needs-sum constraint. -/
def needsCats : List Cat :=
  [.transport_expenditure, .food_expenditure, .housing_expenditure, .insurance_expenditure,
   .other_needs_expenditure]

/-- Seven categories whose current values are read directly from the input mapping. -/
def suppliedCats : List Cat :=
  [.transport_expenditure, .food_expenditure, .housing_expenditure, .insurance_expenditure,
   .other_needs_expenditure, .investment_expenditure, .monthly_savings]

/-- Step factor per category (source `factors`): 10 dollars for transport, 50 otherwise. -/
def factors (c : Cat) : ℤ := if c = .transport_expenditure then 10 else 50

/-- Numeric budget input: the seven directly supplied category values plus
`monthly_take_home` (income), each read from the input mapping with default 0
via `current_allocations.get(cat, 0)`.  Extra non-budget keys of the Python
dict (age, household flags, ...) are never read by the optimizer, and any
supplied `total_needs`/`total_wants` entries are overwritten before use, so
neither needs to be represented. -/
structure BudgetInput where
  transport_expenditure : ℤ
  food_expenditure : ℤ
  housing_expenditure : ℤ
  insurance_expenditure : ℤ
  other_needs_expenditure : ℤ
  investment_expenditure : ℤ
  monthly_savings : ℤ
  monthly_take_home : ℤ
deriving DecidableEq

/-- Sum of the five supplied needs values (source `current_total_needs`). -/
def needsSum (inp : BudgetInput) : ℤ :=
  inp.transport_expenditure + inp.food_expenditure + inp.housing_expenditure +
    inp.insurance_expenditure + inp.other_needs_expenditure

/-- Current allocation per category after the source's derivation step:
`current_allocations['total_needs']` is overwritten with the needs sum and
`current_allocations['total_wants']` with income minus needs minus savings;
the other seven categories keep their supplied values. -/
def currentVal (inp : BudgetInput) : Cat → ℤ
  | .transport_expenditure => inp.transport_expenditure
  | .food_expenditure => inp.food_expenditure
  | .housing_expenditure => inp.housing_expenditure
  | .insurance_expenditure => inp.insurance_expenditure
  | .other_needs_expenditure => inp.other_needs_expenditure
  | .investment_expenditure => inp.investment_expenditure
  | .monthly_savings => inp.monthly_savings
  | .total_needs => needsSum inp
  | .total_wants => inp.monthly_take_home - needsSum inp - inp.monthly_savings

/-- Round a rational to an integer with ties to even: the behaviour of
Python's built-in `round` and of IEEE-754 rounding on exact halves. -/
def roundEven (q : ℚ) : ℤ :=
  if q - ⌊q⌋ < 1 / 2 then ⌊q⌋
  else if 1 / 2 < q - ⌊q⌋ then ⌊q⌋ + 1
  else if 2 ∣ ⌊q⌋ then ⌊q⌋ else ⌊q⌋ + 1

/-- Python `int()` applied to a float value: truncation toward zero. -/
def pyint (q : ℚ) : ℤ := if q < 0 then -⌊-q⌋ else ⌊q⌋

/-- Round a rational to the nearest IEEE-754 binary64 value (round to
nearest, ties to even), represented exactly as a rational: the mantissa
`x * 2 ^ (52 - e)` over the binade `[2 ^ e, 2 ^ (e + 1))` of `|x|` is
rounded to an integer with ties to even.  Overflow and subnormal underflow
are out of the range of every value this file applies `rnd` to, so they are
not modelled. -/
def rnd (x : ℚ) : ℚ :=
  if x = 0 then 0
  else if 0 < x then
    (roundEven (x * 2 ^ ((52 : ℤ) - Int.log 2 x)) : ℚ) * 2 ^ (Int.log 2 x - (52 : ℤ))
  else
    -((roundEven (-x * 2 ^ ((52 : ℤ) - Int.log 2 (-x))) : ℚ) * 2 ^ (Int.log 2 (-x) - (52 : ℤ)))

/-- Binary64 value of the source literal `0.2`: the nearest double to 1/5
(see `rnd_fifth` below). -/
def c02 : ℚ := 3602879701896397 / 2 ^ 54

/-- Binary64 value of the source literal `0.3`: the nearest double to 3/10
(see `rnd_three_tenths` below). -/
def c03 : ℚ := 5404319552844595 / 2 ^ 54

/-- Binary64 value of the source literal `0.5`, which is exact. -/
def c05 : ℚ := 1 / 2

/-- Hard-bound constant `int(0.2 * income)` as the source computes it:
the income integer is converted to binary64, multiplied by the double
nearest 0.2 with the product rounded back to binary64, then truncated. -/
def bound02 (n : ℤ) : ℤ := pyint (rnd (c02 * rnd (n : ℚ)))

/-- Hard-bound constant `int(0.5 * income)` as the source computes it. -/
def bound05 (n : ℤ) : ℤ := pyint (rnd (c05 * rnd (n : ℚ)))

/-- Hard-bound constant `int(0.3 * income)` as the source computes it. -/
def bound03 (n : ℤ) : ℤ := pyint (rnd (c03 * rnd (n : ℚ)))

/-- Weight per category (source `weights`):
`max(1, int(round(scale / (current_val + 1))))`.  Python's float division is
modelled as exact rational division: the float quotient is correctly
rounded, and for any `|scale| < 2 ^ 52` the quotient's distance to the
nearest half-integer exceeds its rounding error, so the rounded weight is
the same integer.  `round` is Python's round-half-to-even. -/
def weight (inp : BudgetInput) (scale : ℤ) (c : Cat) : ℤ :=
  max 1 (roundEven ((scale : ℚ) / ((currentVal inp c : ℚ) + 1)))

/-- Values of the per-category decision variables of one built model:
unit variables, effective allocations, deviations, squared deviations. -/
structure Assign where
  units : Cat → ℤ
  alloc : Cat → ℤ
  dev : Cat → ℤ
  quad : Cat → ℤ

/-- Constraint system of the source model, with the three hard-bound
constants passed explicitly (`Feasible` instantiates them with
`bound02/bound05/bound03` of the income).  Conjoins, for every category:
the `NewIntVar` domains (`units` in `[0, income // factor]`, `alloc` in
`[0, income]`, `dev` in `[-income, income]`, `quad` in `[0, income ** 2]`),
`alloc == units * factor`, `dev == alloc - current`, `quad == dev * dev`;
plus the needs-sum equality, the income partition equality, and the three
hard bounds. -/
def FeasibleWith (b2 b5 b3 : ℤ) (inp : BudgetInput) (σ : Assign) : Prop :=
  (∀ c, 0 ≤ σ.units c ∧ σ.units c ≤ inp.monthly_take_home / factors c) ∧
  (∀ c, 0 ≤ σ.alloc c ∧ σ.alloc c ≤ inp.monthly_take_home) ∧
  (∀ c, σ.alloc c = σ.units c * factors c) ∧
  (∀ c, -inp.monthly_take_home ≤ σ.dev c ∧ σ.dev c ≤ inp.monthly_take_home) ∧
  (∀ c, σ.dev c = σ.alloc c - currentVal inp c) ∧
  (∀ c, 0 ≤ σ.quad c ∧ σ.quad c ≤ inp.monthly_take_home ^ 2) ∧
  (∀ c, σ.quad c = σ.dev c * σ.dev c) ∧
  (needsCats.map σ.alloc).sum = σ.alloc .total_needs ∧
  σ.alloc .total_needs + σ.alloc .total_wants + σ.alloc .monthly_savings =
    inp.monthly_take_home ∧
  b2 ≤ σ.alloc .monthly_savings ∧
  σ.alloc .total_needs ≤ b5 ∧
  σ.alloc .total_wants ≤ b3

instance (b2 b5 b3 : ℤ) (inp : BudgetInput) (σ : Assign) :
    Decidable (FeasibleWith b2 b5 b3 inp σ) := by
  unfold FeasibleWith
  infer_instance

/-- Feasibility for the model the source builds from `inp`. -/
def Feasible (inp : BudgetInput) (σ : Assign) : Prop :=
  FeasibleWith (bound02 inp.monthly_take_home) (bound05 inp.monthly_take_home)
    (bound03 inp.monthly_take_home) inp σ

/-- Returned loss, as the source extracts it:
`sum(solver.Value(quad_vars[cat]) * weights[cat] for cat in categories)`. -/
def lossOf (inp : BudgetInput) (scale : ℤ) (σ : Assign) : ℤ :=
  (Cat.all.map (fun c => σ.quad c * weight inp scale c)).sum

/-- CP-SAT solver termination statuses. -/
inductive CpStatus
  | UNKNOWN
  | MODEL_INVALID
  | FEASIBLE
  | INFEASIBLE
  | OPTIMAL
deriving DecidableEq

/-- Return value of the source function given the solver status and the
assignment the solver reports: on OPTIMAL or FEASIBLE, the pair of the
effective allocation mapping over all nine categories and the total
weighted quadratic loss; on every other status the explicit no-solution
signal `(None, None)`, modelled as `none`. -/
def optimizeReturn (inp : BudgetInput) (scale : ℤ) (st : CpStatus) (σ : Assign) :
    Option ((Cat → ℤ) × ℤ) :=
  if st = CpStatus.OPTIMAL ∨ st = CpStatus.FEASIBLE then
    some (σ.alloc, lossOf inp scale σ)
  else none

/-- Python dict with integer values, used to analyse the mutation of the
caller's `current_allocations` mapping (only numeric keys matter to the
optimizer, so values are integers). -/
def PyDict : Type := String → Option ℤ

/-- Value of `m.get(k, 0)`. -/
def dget (m : PyDict) (k : String) : ℤ := (m k).getD 0

/-- Dict state after the statement `m[k] = v`. -/
def dset (m : PyDict) (k : String) (v : ℤ) : PyDict :=
  fun q => if q = k then some v else m q

/-- Needs sum read from the dict exactly as the source loop reads it. -/
def dNeedsSum (m : PyDict) : ℤ :=
  dget m "transport_expenditure" + dget m "food_expenditure" + dget m "housing_expenditure" +
    dget m "insurance_expenditure" + dget m "other_needs_expenditure"

/-- State of the caller's `current_allocations` dict after a call: the
source executes `current_allocations['total_needs'] = current_total_needs`
and then `current_allocations['total_wants'] = current_total_wants`,
mutating the caller's dict in place; no other key is ever written. -/
def afterOptimize (m : PyDict) : PyDict :=
  dset (dset m "total_needs" (dNeedsSum m)) "total_wants"
    (dget m "monthly_take_home" - dNeedsSum m - dget m "monthly_savings")

/-- Reference input of the notebook run (non-budget keys of the dict are
ignored by the optimizer). -/
def inp6 : BudgetInput := ⟨100, 100, 1000, 100, 700, 300, 700, 4000⟩

/-- Reference optimal assignment printed by the notebook run. -/
def ref6 : Assign where
  units c :=
    match c with
    | .transport_expenditure => 10
    | .food_expenditure => 2
    | .housing_expenditure => 20
    | .insurance_expenditure => 2
    | .other_needs_expenditure => 14
    | .investment_expenditure => 6
    | .monthly_savings => 16
    | .total_needs => 40
    | .total_wants => 24
  alloc c :=
    match c with
    | .transport_expenditure => 100
    | .food_expenditure => 100
    | .housing_expenditure => 1000
    | .insurance_expenditure => 100
    | .other_needs_expenditure => 700
    | .investment_expenditure => 300
    | .monthly_savings => 800
    | .total_needs => 2000
    | .total_wants => 1200
  dev c :=
    match c with
    | .monthly_savings => 100
    | .total_wants => -100
    | _ => 0
  quad c :=
    match c with
    | .monthly_savings => 10000
    | .total_wants => 10000
    | _ => 0

/-- All-zero assignment. -/
def zeroAssign : Assign := ⟨fun _ => 0, fun _ => 0, fun _ => 0, fun _ => 0⟩

/-- Income-zero input with one nonzero supplied allocation. -/
def inp7c : BudgetInput := ⟨0, 100, 0, 0, 0, 0, 0, 0⟩

/-- All-zero input with income zero. -/
def inp7ok : BudgetInput := ⟨0, 0, 0, 0, 0, 0, 0, 0⟩

/-- Nonnegative input on which the derived `total_wants` current value
is -1, so the weight divisor for `total_wants` is zero. -/
def inp8c : BudgetInput := ⟨0, 0, 0, 0, 0, 0, 1, 0⟩

/-- Input whose supplied food value exceeds twice the income. -/
def inp10 : BudgetInput := ⟨0, 300, 0, 0, 0, 0, 0, 100⟩

/-- Python dict with no keys at all. -/
def emptyDict : PyDict := fun _ => none

/-- Round-half-to-even returns the floor or the floor plus one. -/
theorem roundEven_eq_floor_or (q : ℚ) : roundEven q = ⌊q⌋ ∨ roundEven q = ⌊q⌋ + 1 := by
  unfold roundEven
  split_ifs <;> simp

/-- Any integer strictly below `q + 1/2` is at most the rounding of `q`. -/
theorem le_roundEven (M : ℤ) (q : ℚ) (h : (M : ℚ) - 1 / 2 < q) : M ≤ roundEven q := by
  have hfl := Int.floor_le q
  have hfu := Int.lt_floor_add_one q
  unfold roundEven
  split_ifs with h1 h2 h3
  · have hq : (M : ℚ) < (⌊q⌋ : ℚ) + 1 := by linarith
    have hm : M < ⌊q⌋ + 1 := by exact_mod_cast hq
    omega
  · have hq : (M : ℚ) < (⌊q⌋ : ℚ) + 2 := by linarith
    have hm : M < ⌊q⌋ + 2 := by exact_mod_cast hq
    omega
  · have hq : (M : ℚ) < (⌊q⌋ : ℚ) + 1 := by linarith
    have hm : M < ⌊q⌋ + 1 := by exact_mod_cast hq
    omega
  · have hq : (M : ℚ) < (⌊q⌋ : ℚ) + 1 := by linarith
    have hm : M < ⌊q⌋ + 1 := by exact_mod_cast hq
    omega

/-- The rounding of `q` stays below any integer exceeding `q + 1/2`. -/
theorem roundEven_le (M : ℤ) (q : ℚ) (h : q < (M : ℚ) - 1 / 2) : roundEven q ≤ M - 1 := by
  have hfl := Int.floor_le q
  have hfu := Int.lt_floor_add_one q
  unfold roundEven
  split_ifs with h1 h2 h3
  · have hq : (⌊q⌋ : ℚ) < (M : ℚ) := by linarith
    have hm : ⌊q⌋ < M := by exact_mod_cast hq
    omega
  · have hq : (⌊q⌋ : ℚ) + 1 < (M : ℚ) := by linarith
    have hm : ⌊q⌋ + 1 < M := by exact_mod_cast hq
    omega
  · have hq : (⌊q⌋ : ℚ) + 1 < (M : ℚ) := by linarith
    have hm : ⌊q⌋ + 1 < M := by exact_mod_cast hq
    omega
  · have hq : (⌊q⌋ : ℚ) + 1 < (M : ℚ) := by linarith
    have hm : ⌊q⌋ + 1 < M := by exact_mod_cast hq
    omega

/-- Round-half-to-even fixes integers. -/
theorem roundEven_intCast (n : ℤ) : roundEven (n : ℚ) = n := by
  unfold roundEven
  rw [Int.floor_intCast]
  norm_num

/-- Concrete evaluation of `roundEven` when the fraction is below one half. -/
theorem roundEven_eval_lt (q : ℚ) (f : ℤ) (h1 : ⌊q⌋ = f) (h2 : q - (f : ℚ) < 1 / 2) :
    roundEven q = f := by
  unfold roundEven
  rw [h1, if_pos h2]

/-- Concrete evaluation of `roundEven` when the fraction is above one half. -/
theorem roundEven_eval_gt (q : ℚ) (f : ℤ) (h1 : ⌊q⌋ = f) (h2 : 1 / 2 < q - (f : ℚ)) :
    roundEven q = f + 1 := by
  unfold roundEven
  rw [h1, if_neg (lt_asymm h2), if_pos h2]

/-- Concrete evaluation of `roundEven` at an exact half above an odd floor. -/
theorem roundEven_eval_tie_odd (q : ℚ) (f : ℤ) (h1 : ⌊q⌋ = f) (h2 : q - (f : ℚ) = 1 / 2)
    (h3 : ¬ 2 ∣ f) : roundEven q = f + 1 := by
  unfold roundEven
  rw [h1, h2, if_neg (lt_irrefl _), if_neg (lt_irrefl _), if_neg h3]

/-- Truncation toward zero agrees with the floor on nonnegative values. -/
theorem pyint_of_nonneg (q : ℚ) (h : 0 ≤ q) : pyint q = ⌊q⌋ := by
  unfold pyint
  exact if_neg (not_lt.mpr h)

/-- Concrete evaluation of a rational floor. -/
theorem floor_eval (q : ℚ) (f : ℤ) (h1 : (f : ℚ) ≤ q) (h2 : q < (f : ℚ) + 1) : ⌊q⌋ = f :=
  Int.floor_eq_iff.mpr ⟨h1, by exact_mod_cast h2⟩

/-- Pinning the base-2 logarithm from an explicit binade. -/
theorem log2_eq_of (x : ℚ) (e : ℤ) (hx : 0 < x) (h1 : (2 : ℚ) ^ e ≤ x)
    (h2 : x < (2 : ℚ) ^ (e + 1)) : Int.log 2 x = e := by
  have hle : e ≤ Int.log 2 x := (Int.zpow_le_iff_le_log one_lt_two hx).mp h1
  have hlt : Int.log 2 x < e + 1 := (Int.lt_zpow_iff_log_lt one_lt_two hx).mp h2
  omega

/-- Upper bound on the base-2 logarithm from an upper bound on the value. -/
theorem log2_le_of_lt (x : ℚ) (e : ℤ) (hx : 0 < x) (h2 : x < (2 : ℚ) ^ (e + 1)) :
    Int.log 2 x ≤ e := by
  have hlt : Int.log 2 x < e + 1 := (Int.lt_zpow_iff_log_lt one_lt_two hx).mp h2
  omega

/-- Rounding of zero. -/
theorem rnd_zero : rnd 0 = 0 := by
  unfold rnd
  simp

/-- Unfolding of `rnd` on positive input. -/
theorem rnd_pos_eq (x : ℚ) (hx : 0 < x) :
    rnd x = (roundEven (x * 2 ^ ((52 : ℤ) - Int.log 2 x)) : ℚ) * 2 ^ (Int.log 2 x - (52 : ℤ)) := by
  unfold rnd
  rw [if_neg hx.ne', if_pos hx]

/-- Lower bound: an integer within half an ulp below `x` bounds `rnd x` from
below (the integer is representable since `Int.log 2 x ≤ 52`). -/
theorem le_rnd (x : ℚ) (M : ℤ) (hx : 0 < x) (he : Int.log 2 x ≤ 52)
    (h : (M : ℚ) - 2 ^ (Int.log 2 x - 53) < x) : (M : ℚ) ≤ rnd x := by
  set e := Int.log 2 x with hedef
  set n : ℕ := (52 - e).toNat with hndef
  have hn : ((n : ℤ)) = 52 - e := Int.toNat_of_nonneg (by omega)
  have hKcast : ((M * 2 ^ n : ℤ) : ℚ) = (M : ℚ) * 2 ^ ((52 : ℤ) - e) := by
    push_cast
    rw [← zpow_natCast (2 : ℚ) n, hn]
  have hpow : (0 : ℚ) < 2 ^ ((52 : ℤ) - e) := zpow_pos (by norm_num) _
  have hexp : (2 : ℚ) ^ (e - 53) * 2 ^ ((52 : ℤ) - e) = 1 / 2 := by
    rw [← zpow_add₀ (by norm_num : (2 : ℚ) ≠ 0)]
    norm_num
  have hm : ((M * 2 ^ n : ℤ) : ℚ) - 1 / 2 < x * 2 ^ ((52 : ℤ) - e) := by
    have hmul := mul_lt_mul_of_pos_right h hpow
    calc ((M * 2 ^ n : ℤ) : ℚ) - 1 / 2
        = ((M : ℚ) - 2 ^ (e - 53)) * 2 ^ ((52 : ℤ) - e) := by rw [sub_mul, hKcast, hexp]
      _ < x * 2 ^ ((52 : ℤ) - e) := hmul
  have hre : M * 2 ^ n ≤ roundEven (x * 2 ^ ((52 : ℤ) - e)) := le_roundEven _ _ hm
  rw [rnd_pos_eq x hx, ← hedef]
  have hpow2 : (0 : ℚ) < 2 ^ (e - (52 : ℤ)) := zpow_pos (by norm_num) _
  have hstep : ((M * 2 ^ n : ℤ) : ℚ) * 2 ^ (e - (52 : ℤ)) ≤
      (roundEven (x * 2 ^ ((52 : ℤ) - e)) : ℚ) * 2 ^ (e - (52 : ℤ)) := by
    apply mul_le_mul_of_nonneg_right _ hpow2.le
    exact_mod_cast hre
  refine le_trans (le_of_eq ?_) hstep
  rw [hKcast, mul_assoc, ← zpow_add₀ (by norm_num : (2 : ℚ) ≠ 0)]
  have hz : (52 : ℤ) - e + (e - 52) = 0 := by ring
  rw [hz, zpow_zero, mul_one]

/-- Upper bound: `rnd x` stays strictly below an integer more than half an
ulp above `x`. -/
theorem rnd_lt (x : ℚ) (M : ℤ) (hx : 0 < x) (he : Int.log 2 x ≤ 52)
    (h : x < (M : ℚ) - 2 ^ (Int.log 2 x - 53)) : rnd x < M := by
  set e := Int.log 2 x with hedef
  set n : ℕ := (52 - e).toNat with hndef
  have hn : ((n : ℤ)) = 52 - e := Int.toNat_of_nonneg (by omega)
  have hKcast : ((M * 2 ^ n : ℤ) : ℚ) = (M : ℚ) * 2 ^ ((52 : ℤ) - e) := by
    push_cast
    rw [← zpow_natCast (2 : ℚ) n, hn]
  have hpow : (0 : ℚ) < 2 ^ ((52 : ℤ) - e) := zpow_pos (by norm_num) _
  have hexp : (2 : ℚ) ^ (e - 53) * 2 ^ ((52 : ℤ) - e) = 1 / 2 := by
    rw [← zpow_add₀ (by norm_num : (2 : ℚ) ≠ 0)]
    norm_num
  have hm : x * 2 ^ ((52 : ℤ) - e) < ((M * 2 ^ n : ℤ) : ℚ) - 1 / 2 := by
    have hmul := mul_lt_mul_of_pos_right h hpow
    calc x * 2 ^ ((52 : ℤ) - e)
        < ((M : ℚ) - 2 ^ (e - 53)) * 2 ^ ((52 : ℤ) - e) := hmul
      _ = ((M * 2 ^ n : ℤ) : ℚ) - 1 / 2 := by rw [sub_mul, hKcast, hexp]
  have hre : roundEven (x * 2 ^ ((52 : ℤ) - e)) ≤ M * 2 ^ n - 1 := roundEven_le _ _ hm
  rw [rnd_pos_eq x hx, ← hedef]
  have hpow2 : (0 : ℚ) < 2 ^ (e - (52 : ℤ)) := zpow_pos (by norm_num) _
  have hstep : (roundEven (x * 2 ^ ((52 : ℤ) - e)) : ℚ) * 2 ^ (e - (52 : ℤ)) ≤
      ((M * 2 ^ n - 1 : ℤ) : ℚ) * 2 ^ (e - (52 : ℤ)) := by
    apply mul_le_mul_of_nonneg_right _ hpow2.le
    exact_mod_cast hre
  refine lt_of_le_of_lt hstep ?_
  have hone : ((M * 2 ^ n - 1 : ℤ) : ℚ) = ((M * 2 ^ n : ℤ) : ℚ) - 1 := by push_cast; ring
  rw [hone, sub_mul, hKcast, mul_assoc, ← zpow_add₀ (by norm_num : (2 : ℚ) ≠ 0)]
  have hz : (52 : ℤ) - e + (e - 52) = 0 := by ring
  rw [hz, zpow_zero, mul_one]
  have : (0 : ℚ) < 1 * 2 ^ (e - (52 : ℤ)) := by rw [one_mul]; exact hpow2
  linarith

/-- Values whose mantissa is already an integer are fixed by `rnd`. -/
theorem rnd_fix (x : ℚ) (m : ℤ) (hx : 0 < x)
    (hm : x * 2 ^ ((52 : ℤ) - Int.log 2 x) = (m : ℚ)) : rnd x = x := by
  rw [rnd_pos_eq x hx, hm, roundEven_intCast, ← hm, mul_assoc,
    ← zpow_add₀ (by norm_num : (2 : ℚ) ≠ 0)]
  have hz : (52 : ℤ) - Int.log 2 x + (Int.log 2 x - 52) = 0 := by ring
  rw [hz, zpow_zero, mul_one]

/-- Integers below `2 ^ 53` are exactly representable, hence fixed by `rnd`. -/
theorem rnd_intCast (k : ℤ) (h0 : 0 < k) (h53 : k < 2 ^ 53) : rnd (k : ℚ) = (k : ℚ) := by
  have hx : (0 : ℚ) < (k : ℚ) := by exact_mod_cast h0
  have he : Int.log 2 ((k : ℚ)) ≤ 52 := by
    apply log2_le_of_lt _ 52 hx
    have hlt : (k : ℚ) < ((2 : ℚ)) ^ (53 : ℕ) := by exact_mod_cast h53
    have h53z : ((2 : ℚ)) ^ ((52 : ℤ) + 1) = ((2 : ℚ)) ^ (53 : ℕ) := by norm_num
    rw [h53z]
    exact hlt
  set e := Int.log 2 ((k : ℚ)) with hedef
  set n : ℕ := (52 - e).toNat with hndef
  have hn : ((n : ℤ)) = 52 - e := Int.toNat_of_nonneg (by omega)
  apply rnd_fix _ (k * 2 ^ n) hx
  rw [← hedef]
  push_cast
  rw [← zpow_natCast (2 : ℚ) n, hn]

/-- Evaluation scaffold for `rnd` at an explicit value: supply the binade,
the simplified mantissa and its rounding. -/
theorem rnd_concrete (x mq : ℚ) (e r : ℤ) (hx : 0 < x)
    (h1 : (2 : ℚ) ^ e ≤ x) (h2 : x < (2 : ℚ) ^ (e + 1))
    (hmant : x * 2 ^ ((52 : ℤ) - e) = mq)
    (hr : roundEven mq = r) :
    rnd x = (r : ℚ) * 2 ^ (e - (52 : ℤ)) := by
  rw [rnd_pos_eq x hx, log2_eq_of x e hx h1 h2, hmant, hr]

/-- Below `2 ^ 53` the constant `int(0.5 * income)` is the exact floor:
the product by 0.5 is exactly representable. -/
theorem bound05_exact (n : ℤ) (h0 : 0 ≤ n) (hlt : n < 9007199254740992) :
    bound05 n = ⌊(n : ℚ) / 2⌋ := by
  rcases h0.eq_or_lt with h | hpos
  · rw [← h]
    unfold bound05
    rw [Int.cast_zero, rnd_zero, mul_zero, rnd_zero, pyint_of_nonneg 0 le_rfl]
    norm_num
  · have h53 : n < 2 ^ 53 := by
      have : (2 : ℤ) ^ 53 = 9007199254740992 := by norm_num
      omega
    have hrndn : rnd ((n : ℚ)) = (n : ℚ) := rnd_intCast n hpos h53
    unfold bound05
    rw [hrndn]
    have hnq0 : (0 : ℚ) < (n : ℚ) := by exact_mod_cast hpos
    have hppos : (0 : ℚ) < c05 * (n : ℚ) := by
      apply mul_pos _ hnq0
      norm_num [c05]
    have hcast : (n : ℚ) < 9007199254740992 := by exact_mod_cast hlt
    have hp51 : c05 * (n : ℚ) < (2 : ℚ) ^ ((51 : ℤ) + 1) := by
      have : c05 * (n : ℚ) < c05 * 9007199254740992 := by
        apply mul_lt_mul_of_pos_left hcast
        norm_num [c05]
      calc c05 * (n : ℚ) < c05 * 9007199254740992 := this
        _ ≤ (2 : ℚ) ^ ((51 : ℤ) + 1) := by norm_num [c05]
    have he : Int.log 2 (c05 * (n : ℚ)) ≤ 51 := log2_le_of_lt _ 51 hppos hp51
    set e := Int.log 2 (c05 * (n : ℚ)) with hedef
    set nn : ℕ := (51 - e).toNat with hnndef
    have hn : ((nn : ℤ)) = 51 - e := Int.toNat_of_nonneg (by omega)
    have hfix : rnd (c05 * (n : ℚ)) = c05 * (n : ℚ) := by
      apply rnd_fix _ (n * 2 ^ nn) hppos
      rw [← hedef]
      push_cast
      rw [← zpow_natCast (2 : ℚ) nn, hn]
      have hsplit : (2 : ℚ) ^ ((52 : ℤ) - e) = 2 * 2 ^ ((51 : ℤ) - e) := by
        rw [show ((52 : ℤ) - e) = 1 + (51 - e) by ring, zpow_add₀ (by norm_num : (2 : ℚ) ≠ 0)]
        norm_num
      rw [hsplit]
      norm_num [c05]
      ring
    rw [hfix]
    have hhalf : c05 * (n : ℚ) = (n : ℚ) / 2 := by
      norm_num [c05]
      ring
    rw [hhalf]
    have hr0 : (0 : ℚ) ≤ (n : ℚ) / 2 := by positivity
    rw [pyint_of_nonneg _ hr0]

/-- Below `3 * 2 ^ 51 = 6755399441055744` the constant `int(0.2 * income)`
is the exact floor of `income / 5` (it stops being so exactly there, see the
counterexample below). -/
theorem bound02_exact (n : ℤ) (h0 : 0 ≤ n) (hlt : n < 6755399441055744) :
    bound02 n = ⌊(n : ℚ) / 5⌋ := by
  rcases h0.eq_or_lt with h | hpos
  · rw [← h]
    unfold bound02
    rw [Int.cast_zero, rnd_zero, mul_zero, rnd_zero, pyint_of_nonneg 0 le_rfl]
    norm_num
  · have h53 : n < 2 ^ 53 := by
      have : (2 : ℤ) ^ 53 = 9007199254740992 := by norm_num
      omega
    have hrndn : rnd ((n : ℚ)) = (n : ℚ) := rnd_intCast n hpos h53
    unfold bound02
    rw [hrndn]
    set p : ℚ := c02 * (n : ℚ) with hpdef
    have hnq0 : (0 : ℚ) < (n : ℚ) := by exact_mod_cast hpos
    have hc : c02 = 1 / 5 + 1 / (5 * 2 ^ 54) := by norm_num [c02]
    have hp : p = (n : ℚ) / 5 + (n : ℚ) / (5 * 2 ^ 54) := by
      rw [hpdef, hc]
      ring
    have hppos : (0 : ℚ) < p := by
      rw [hp]
      positivity
    set q : ℤ := n / 5 with hqdef
    have hq1 : 5 * q ≤ n := by omega
    have hq2 : n ≤ 5 * q + 4 := by omega
    have hq0 : 0 ≤ q := by omega
    have hqcast : (q : ℚ) ≤ (n : ℚ) / 5 := by
      have h5q : ((5 * q : ℤ) : ℚ) ≤ (n : ℚ) := by exact_mod_cast hq1
      push_cast at h5q
      linarith
    have hn54 : (n : ℚ) ≤ 5 * (q : ℚ) + 4 := by exact_mod_cast hq2
    have hcast : (n : ℚ) < 6755399441055744 := by exact_mod_cast hlt
    have htail0 : (0 : ℚ) < (n : ℚ) / (5 * 2 ^ 54) := by positivity
    have htail : (n : ℚ) / (5 * 2 ^ 54) < 3 / 40 := by
      rw [div_lt_iff₀ (by norm_num)]
      calc (n : ℚ) < 6755399441055744 := hcast
        _ = 3 / 40 * (5 * 2 ^ 54) := by norm_num
    have hc02pos : (0 : ℚ) < c02 := by norm_num [c02]
    have hp51 : p < (2 : ℚ) ^ ((50 : ℤ) + 1) := by
      calc p = c02 * (n : ℚ) := hpdef
        _ < c02 * 6755399441055744 := mul_lt_mul_of_pos_left hcast hc02pos
        _ ≤ (2 : ℚ) ^ ((50 : ℤ) + 1) := by norm_num [c02]
    have he : Int.log 2 p ≤ 50 := log2_le_of_lt p 50 hppos hp51
    have he52 : Int.log 2 p ≤ 52 := by omega
    have hulp : (2 : ℚ) ^ (Int.log 2 p - 53) ≤ 1 / 8 := by
      have h3 : Int.log 2 p - 53 ≤ -3 := by omega
      calc (2 : ℚ) ^ (Int.log 2 p - 53) ≤ (2 : ℚ) ^ (-3 : ℤ) :=
            zpow_le_zpow_right₀ (by norm_num) h3
        _ = 1 / 8 := by norm_num
    have hulp0 : (0 : ℚ) < 2 ^ (Int.log 2 p - 53) := zpow_pos (by norm_num) _
    have hlow : (q : ℚ) ≤ rnd p := by
      apply le_rnd p q hppos he52
      have hqp : (q : ℚ) ≤ p := by
        rw [hp]
        linarith
      linarith
    have hup : rnd p < ((q + 1 : ℤ) : ℚ) := by
      apply rnd_lt p (q + 1) hppos he52
      have hdivb : (n : ℚ) / 5 ≤ (q : ℚ) + 4 / 5 := by linarith
      push_cast
      linarith [hp, hdivb, htail, hulp]
    have hr0 : (0 : ℚ) ≤ rnd p := by
      have : ((0 : ℤ) : ℚ) ≤ (q : ℚ) := by exact_mod_cast hq0
      simpa using le_trans this hlow
    rw [pyint_of_nonneg _ hr0]
    have hfl : ⌊rnd p⌋ = q := floor_eval _ _ hlow (by exact_mod_cast hup)
    rw [hfl]
    have hgoal : ⌊(n : ℚ) / 5⌋ = q := by
      rw [show ((n : ℚ) / 5) = ((n : ℤ) : ℚ) / ((5 : ℕ) : ℚ) by norm_num,
        Rat.floor_intCast_div_natCast]
      rw [hqdef]
      norm_num
    omega

/-- Below `3 * 2 ^ 51` the constant `int(0.3 * income)` is the exact floor
of `3 * income / 10`: the product undershoots the exact value by less than
half an ulp, so rounding recovers the correct binade point. -/
theorem bound03_exact (n : ℤ) (h0 : 0 ≤ n) (hlt : n < 6755399441055744) :
    bound03 n = ⌊3 * (n : ℚ) / 10⌋ := by
  rcases h0.eq_or_lt with h | hpos
  · rw [← h]
    unfold bound03
    rw [Int.cast_zero, rnd_zero, mul_zero, rnd_zero, pyint_of_nonneg 0 le_rfl]
    norm_num
  · have h53 : n < 2 ^ 53 := by
      have : (2 : ℤ) ^ 53 = 9007199254740992 := by norm_num
      omega
    have hrndn : rnd ((n : ℚ)) = (n : ℚ) := rnd_intCast n hpos h53
    unfold bound03
    rw [hrndn]
    set p : ℚ := c03 * (n : ℚ) with hpdef
    have hnq0 : (0 : ℚ) < (n : ℚ) := by exact_mod_cast hpos
    have hc : c03 = 3 / 10 - 1 / (5 * 2 ^ 54) := by norm_num [c03]
    have hp : p = 3 * (n : ℚ) / 10 - (n : ℚ) / (5 * 2 ^ 54) := by
      rw [hpdef, hc]
      ring
    have hc03pos : (0 : ℚ) < c03 := by norm_num [c03]
    have hppos : (0 : ℚ) < p := by
      rw [hpdef]
      exact mul_pos hc03pos hnq0
    set q : ℤ := 3 * n / 10 with hqdef
    have hq1 : 10 * q ≤ 3 * n := by omega
    have hq2 : 3 * n ≤ 10 * q + 9 := by omega
    have hq0 : 0 ≤ q := by omega
    have hqcast : (q : ℚ) ≤ 3 * (n : ℚ) / 10 := by
      have h10q : ((10 * q : ℤ) : ℚ) ≤ ((3 * n : ℤ) : ℚ) := by exact_mod_cast hq1
      push_cast at h10q
      linarith
    have hn9 : 3 * (n : ℚ) ≤ 10 * (q : ℚ) + 9 := by exact_mod_cast hq2
    have hcast : (n : ℚ) < 6755399441055744 := by exact_mod_cast hlt
    have htail0 : (0 : ℚ) < (n : ℚ) / (5 * 2 ^ 54) := by positivity
    have hp51 : p < (2 : ℚ) ^ ((50 : ℤ) + 1) := by
      calc p = c03 * (n : ℚ) := hpdef
        _ < c03 * 6755399441055744 := mul_lt_mul_of_pos_left hcast hc03pos
        _ ≤ (2 : ℚ) ^ ((50 : ℤ) + 1) := by norm_num [c03]
    have he : Int.log 2 p ≤ 50 := log2_le_of_lt p 50 hppos hp51
    have he52 : Int.log 2 p ≤ 52 := by omega
    have hulp : (2 : ℚ) ^ (Int.log 2 p - 53) ≤ 1 / 8 := by
      have h3 : Int.log 2 p - 53 ≤ -3 := by omega
      calc (2 : ℚ) ^ (Int.log 2 p - 53) ≤ (2 : ℚ) ^ (-3 : ℤ) :=
            zpow_le_zpow_right₀ (by norm_num) h3
        _ = 1 / 8 := by norm_num
    have hulp0 : (0 : ℚ) < 2 ^ (Int.log 2 p - 53) := zpow_pos (by norm_num) _
    have hloglow : (2 : ℚ) ^ (Int.log 2 p) ≤ p := Int.zpow_log_le_self one_lt_two hppos
    have hloghigh : p < (2 : ℚ) ^ (Int.log 2 p + 1) := Int.lt_zpow_succ_log_self one_lt_two p
    have htail : (n : ℚ) / (5 * 2 ^ 54) < 3 / 40 := by
      rw [div_lt_iff₀ (by norm_num)]
      calc (n : ℚ) < 6755399441055744 := hcast
        _ = 3 / 40 * (5 * 2 ^ 54) := by norm_num
    have hsplitlow : (2 : ℚ) ^ (Int.log 2 p) = 9007199254740992 * 2 ^ (Int.log 2 p - 53) := by
      have h1 := zpow_add₀ (by norm_num : (2 : ℚ) ≠ 0) (53 : ℤ) (Int.log 2 p - 53)
      rw [show (53 : ℤ) + (Int.log 2 p - 53) = Int.log 2 p by ring] at h1
      rw [h1]
      norm_num
    have hsplithigh : (2 : ℚ) ^ (Int.log 2 p + 1) = 18014398509481984 * 2 ^ (Int.log 2 p - 53) := by
      have h1 := zpow_add₀ (by norm_num : (2 : ℚ) ≠ 0) (54 : ℤ) (Int.log 2 p - 53)
      rw [show (54 : ℤ) + (Int.log 2 p - 53) = Int.log 2 p + 1 by ring] at h1
      rw [h1]
      norm_num
    have hquarter : (n : ℚ) / 4 ≤ p := by
      rw [hpdef]
      have h14 : (1 / 4 : ℚ) ≤ c03 := by norm_num [c03]
      have := mul_le_mul_of_nonneg_right h14 hnq0.le
      linarith
    have htailup : (n : ℚ) / (5 * 2 ^ 54) < 2 ^ (Int.log 2 p - 53) := by
      have hn4 : (n : ℚ) < 4 * (18014398509481984 * 2 ^ (Int.log 2 p - 53)) := by
        rw [← hsplithigh]
        linarith
      rw [div_lt_iff₀ (by norm_num)]
      calc (n : ℚ) < 4 * (18014398509481984 * 2 ^ (Int.log 2 p - 53)) := hn4
        _ ≤ 2 ^ (Int.log 2 p - 53) * (5 * 2 ^ 54) := by
            have : (4 : ℚ) * 18014398509481984 ≤ 5 * 2 ^ 54 := by norm_num
            nlinarith [hulp0.le]
    have hulp3 : 2 ^ (Int.log 2 p - 53) ≤ 3 * ((n : ℚ) / (5 * 2 ^ 54)) := by
      have h1 : 9007199254740992 * 2 ^ (Int.log 2 p - 53) ≤ p := by
        rw [← hsplitlow]
        exact hloglow
      have h2 : p ≤ 27021597764222976 * ((n : ℚ) / (5 * 2 ^ 54)) := by
        have h3n : 3 * (n : ℚ) / 10 = 27021597764222976 * ((n : ℚ) / (5 * 2 ^ 54)) := by ring
        rw [hp, h3n]
        linarith
      linarith
    have hlow : (q : ℚ) ≤ rnd p := by
      apply le_rnd p q hppos he52
      linarith [hp, hqcast, htailup]
    have hup : rnd p < ((q + 1 : ℤ) : ℚ) := by
      apply rnd_lt p (q + 1) hppos he52
      have hdivb : 3 * (n : ℚ) / 10 ≤ (q : ℚ) + 9 / 10 := by linarith
      push_cast
      linarith [hp, hdivb, hulp, hulp3, htail]
    have hr0 : (0 : ℚ) ≤ rnd p := by
      have : ((0 : ℤ) : ℚ) ≤ (q : ℚ) := by exact_mod_cast hq0
      simpa using le_trans this hlow
    rw [pyint_of_nonneg _ hr0]
    have hfl : ⌊rnd p⌋ = q := floor_eval _ _ hlow (by exact_mod_cast hup)
    rw [hfl]
    have hgoal : ⌊3 * (n : ℚ) / 10⌋ = q := by
      rw [show (3 * (n : ℚ) / 10) = ((3 * n : ℤ) : ℚ) / ((10 : ℕ) : ℚ) by push_cast; ring,
        Rat.floor_intCast_div_natCast]
      rw [hqdef]
      norm_num
    omega

/-- Truncation fixes integer values. -/
theorem pyint_intCast (k : ℤ) : pyint ((k : ℚ)) = k := by
  unfold pyint
  split_ifs with h
  · rw [← Int.cast_neg, Int.floor_intCast, neg_neg]
  · exact Int.floor_intCast k

/-- Faithfulness of `c02`: rounding 1/5 to binary64 gives exactly `c02`,
so `c02` is the value of the Python literal `0.2`. -/
theorem rnd_fifth : rnd (1 / 5) = c02 := by
  have hfl : ⌊(36028797018963968 : ℚ) / 5⌋ = 7205759403792793 :=
    floor_eval _ _ (by norm_num) (by norm_num)
  have hr : roundEven ((36028797018963968 : ℚ) / 5) = 7205759403792793 + 1 :=
    roundEven_eval_gt _ _ hfl (by norm_num)
  have h := rnd_concrete (1 / 5) ((36028797018963968 : ℚ) / 5) (-3) (7205759403792793 + 1)
    (by norm_num) (by norm_num) (by norm_num) (by norm_num) hr
  rw [h]
  norm_num [c02]

/-- Faithfulness of `c03`: rounding 3/10 to binary64 gives exactly `c03`,
so `c03` is the value of the Python literal `0.3`. -/
theorem rnd_three_tenths : rnd (3 / 10) = c03 := by
  have hfl : ⌊(27021597764222976 : ℚ) / 5⌋ = 5404319552844595 :=
    floor_eval _ _ (by norm_num) (by norm_num)
  have hr : roundEven ((27021597764222976 : ℚ) / 5) = 5404319552844595 :=
    roundEven_eval_lt _ _ hfl (by norm_num)
  have h := rnd_concrete (3 / 10) ((27021597764222976 : ℚ) / 5) (-2) 5404319552844595
    (by norm_num) (by norm_num) (by norm_num) (by norm_num) hr
  rw [h]
  norm_num [c03]

/-- Hard savings bound at the reference income 4000. -/
theorem bound02_4000 : bound02 4000 = 800 := by
  unfold bound02
  rw [rnd_intCast 4000 (by norm_num) (by norm_num)]
  have hx : c02 * ((4000 : ℤ) : ℚ) = 450359962737049625 / 562949953421312 := by
    norm_num [c02]
  rw [hx]
  have hfl : ⌊(450359962737049625 : ℚ) / 64⌋ = 7036874417766400 :=
    floor_eval _ _ (by norm_num) (by norm_num)
  have hr : roundEven ((450359962737049625 : ℚ) / 64) = 7036874417766400 :=
    roundEven_eval_lt _ _ hfl (by norm_num)
  have h := rnd_concrete (450359962737049625 / 562949953421312)
    ((450359962737049625 : ℚ) / 64) 9 7036874417766400
    (by norm_num) (by norm_num) (by norm_num) (by norm_num) hr
  rw [h]
  rw [show ((7036874417766400 : ℤ) : ℚ) * 2 ^ ((9 : ℤ) - 52) = ((800 : ℤ) : ℚ) by norm_num]
  exact pyint_intCast 800

/-- Hard needs bound at the reference income 4000. -/
theorem bound05_4000 : bound05 4000 = 2000 := by
  unfold bound05
  rw [rnd_intCast 4000 (by norm_num) (by norm_num)]
  rw [show c05 * ((4000 : ℤ) : ℚ) = ((2000 : ℤ) : ℚ) by norm_num [c05]]
  rw [rnd_intCast 2000 (by norm_num) (by norm_num)]
  exact pyint_intCast 2000

/-- Hard wants bound at the reference income 4000. -/
theorem bound03_4000 : bound03 4000 = 1200 := by
  unfold bound03
  rw [rnd_intCast 4000 (by norm_num) (by norm_num)]
  have hx : c03 * ((4000 : ℤ) : ℚ) = 675539944105574375 / 562949953421312 := by
    norm_num [c03]
  rw [hx]
  have hfl : ⌊(675539944105574375 : ℚ) / 128⌋ = 5277655813324799 :=
    floor_eval _ _ (by norm_num) (by norm_num)
  have hr : roundEven ((675539944105574375 : ℚ) / 128) = 5277655813324799 + 1 :=
    roundEven_eval_gt _ _ hfl (by norm_num)
  have h := rnd_concrete (675539944105574375 / 562949953421312)
    ((675539944105574375 : ℚ) / 128) 10 (5277655813324799 + 1)
    (by norm_num) (by norm_num) (by norm_num) (by norm_num) hr
  rw [h]
  rw [show (((5277655813324799 + 1) : ℤ) : ℚ) * 2 ^ ((10 : ℤ) - 52) = ((1200 : ℤ) : ℚ) by norm_num]
  exact pyint_intCast 1200

/-- Value of the float-computed savings bound at income `3 * 2 ^ 51`:
the product `income * c02` lands exactly on a representable midpoint,
ties-to-even rounds it up, and `int()` then yields one more than the exact
floor `1351079888211148`. -/
theorem bound02_at_threshold : bound02 6755399441055744 = 1351079888211149 := by
  unfold bound02
  rw [rnd_intCast 6755399441055744 (by norm_num) (by norm_num)]
  have hx : c02 * ((6755399441055744 : ℤ) : ℚ) = 10808639105689191 / 8 := by
    norm_num [c02]
  rw [hx]
  have hfl : ⌊(10808639105689191 : ℚ) / 2⌋ = 5404319552844595 :=
    floor_eval _ _ (by norm_num) (by norm_num)
  have hr : roundEven ((10808639105689191 : ℚ) / 2) = 5404319552844595 + 1 :=
    roundEven_eval_tie_odd _ _ hfl (by norm_num) (by omega)
  have h := rnd_concrete (10808639105689191 / 8) ((10808639105689191 : ℚ) / 2) 50
    (5404319552844595 + 1)
    (by norm_num) (by norm_num) (by norm_num) (by norm_num) hr
  rw [h]
  rw [show (((5404319552844595 + 1) : ℤ) : ℚ) * 2 ^ ((50 : ℤ) - 52) =
    ((1351079888211149 : ℤ) : ℚ) by norm_num]
  exact pyint_intCast 1351079888211149

/-- Weight evaluation scaffold: supply the current value and the rounded
quotient. -/
theorem weight_eval (inp : BudgetInput) (scale : ℤ) (c : Cat) (a f : ℤ)
    (hcur : currentVal inp c = a)
    (hre : roundEven ((scale : ℚ) / ((a : ℚ) + 1)) = f) :
    weight inp scale c = max 1 f := by
  unfold weight
  rw [hcur, hre]

/-- The reference assignment satisfies every constraint of the model built
from the reference input. -/
theorem refFeasible : Feasible inp6 ref6 := by
  show FeasibleWith (bound02 4000) (bound05 4000) (bound03 4000) inp6 ref6
  rw [bound02_4000, bound05_4000, bound03_4000]
  decide

/-- Loss for the reference input, with the nine weights evaluated:
10, 10, 1, 10, 1, 3, 1, 1, 1 in source category order. -/
theorem loss6_expand (σ : Assign) : lossOf inp6 1000 σ =
    10 * σ.quad .transport_expenditure + 10 * σ.quad .food_expenditure +
    σ.quad .housing_expenditure + 10 * σ.quad .insurance_expenditure +
    σ.quad .other_needs_expenditure + 3 * σ.quad .investment_expenditure +
    σ.quad .monthly_savings + σ.quad .total_needs + σ.quad .total_wants := by
  have w1 : weight inp6 1000 Cat.transport_expenditure = max 1 (9 + 1) :=
    weight_eval inp6 1000 _ 100 (9 + 1) (by decide)
      (roundEven_eval_gt _ 9 (floor_eval _ _ (by norm_num) (by norm_num)) (by norm_num))
  have w2 : weight inp6 1000 Cat.food_expenditure = max 1 (9 + 1) :=
    weight_eval inp6 1000 _ 100 (9 + 1) (by decide)
      (roundEven_eval_gt _ 9 (floor_eval _ _ (by norm_num) (by norm_num)) (by norm_num))
  have w3 : weight inp6 1000 Cat.housing_expenditure = max 1 (0 + 1) :=
    weight_eval inp6 1000 _ 1000 (0 + 1) (by decide)
      (roundEven_eval_gt _ 0 (floor_eval _ _ (by norm_num) (by norm_num)) (by norm_num))
  have w4 : weight inp6 1000 Cat.insurance_expenditure = max 1 (9 + 1) :=
    weight_eval inp6 1000 _ 100 (9 + 1) (by decide)
      (roundEven_eval_gt _ 9 (floor_eval _ _ (by norm_num) (by norm_num)) (by norm_num))
  have w5 : weight inp6 1000 Cat.other_needs_expenditure = max 1 1 :=
    weight_eval inp6 1000 _ 700 1 (by decide)
      (roundEven_eval_lt _ 1 (floor_eval _ _ (by norm_num) (by norm_num)) (by norm_num))
  have w6 : weight inp6 1000 Cat.investment_expenditure = max 1 3 :=
    weight_eval inp6 1000 _ 300 3 (by decide)
      (roundEven_eval_lt _ 3 (floor_eval _ _ (by norm_num) (by norm_num)) (by norm_num))
  have w7 : weight inp6 1000 Cat.monthly_savings = max 1 1 :=
    weight_eval inp6 1000 _ 700 1 (by decide)
      (roundEven_eval_lt _ 1 (floor_eval _ _ (by norm_num) (by norm_num)) (by norm_num))
  have w8 : weight inp6 1000 Cat.total_needs = max 1 0 :=
    weight_eval inp6 1000 _ 2000 0 (by decide)
      (roundEven_eval_lt _ 0 (floor_eval _ _ (by norm_num) (by norm_num)) (by norm_num))
  have w9 : weight inp6 1000 Cat.total_wants = max 1 (0 + 1) :=
    weight_eval inp6 1000 _ 1300 (0 + 1) (by decide)
      (roundEven_eval_gt _ 0 (floor_eval _ _ (by norm_num) (by norm_num)) (by norm_num))
  unfold lossOf Cat.all
  simp only [List.map_cons, List.map_nil, List.sum_cons, List.sum_nil, w1, w2, w3, w4, w5, w6,
    w7, w8, w9]
  norm_num
  ring

/-- Loss of the reference assignment is 20000. -/
theorem loss6_ref : lossOf inp6 1000 ref6 = 20000 := by
  rw [loss6_expand]
  decide

/-- Every feasible assignment for the reference input incurs loss at least
20000, and a loss of exactly 20000 pins savings, needs and wants. -/
theorem loss6_lower (σ : Assign) (h : Feasible inp6 σ) :
    20000 ≤ lossOf inp6 1000 σ ∧
    (lossOf inp6 1000 σ ≤ 20000 →
      σ.alloc .monthly_savings = 800 ∧ σ.alloc .total_needs = 2000 ∧
      σ.alloc .total_wants = 1200 ∧ lossOf inp6 1000 σ = 20000) := by
  obtain ⟨hu, ha, hf, hdb, hd, hqb, hq, hns, htot, hb2, hb5, hb3⟩ := h
  have hb2' : (800 : ℤ) ≤ σ.alloc .monthly_savings := by
    have hb := bound02_4000
    exact (show bound02 inp6.monthly_take_home = 800 from hb) ▸ hb2
  have hb3' : σ.alloc .total_wants ≤ 1200 := by
    have hb := bound03_4000
    exact (show bound03 inp6.monthly_take_home = 1200 from hb) ▸ hb3
  have hds : σ.dev .monthly_savings = σ.alloc .monthly_savings - 700 := hd _
  have hdw : σ.dev .total_wants = σ.alloc .total_wants - 1300 := hd _
  have hdn : σ.dev .total_needs = σ.alloc .total_needs - 2000 := hd _
  have hqs : σ.quad .monthly_savings = σ.dev .monthly_savings * σ.dev .monthly_savings := hq _
  have hqw : σ.quad .total_wants = σ.dev .total_wants * σ.dev .total_wants := hq _
  have hqn : σ.quad .total_needs = σ.dev .total_needs * σ.dev .total_needs := hq _
  have hdsge : 100 ≤ σ.dev .monthly_savings := by omega
  have hdwle : σ.dev .total_wants ≤ -100 := by omega
  have hqsge : 10000 ≤ σ.quad .monthly_savings := by nlinarith
  have hqwge : 10000 ≤ σ.quad .total_wants := by nlinarith
  have hq1 := (hqb Cat.transport_expenditure).1
  have hq2 := (hqb Cat.food_expenditure).1
  have hq3 := (hqb Cat.housing_expenditure).1
  have hq4 := (hqb Cat.insurance_expenditure).1
  have hq5 := (hqb Cat.other_needs_expenditure).1
  have hq6 := (hqb Cat.investment_expenditure).1
  have hq8 := (hqb Cat.total_needs).1
  rw [loss6_expand]
  constructor
  · linarith
  · intro hle
    have hqs' : σ.quad .monthly_savings = 10000 := by linarith
    have hqw' : σ.quad .total_wants = 10000 := by linarith
    have hqn' : σ.quad .total_needs = 0 := by linarith
    have hdn0 : σ.dev .total_needs = 0 := by
      have hdd : σ.dev .total_needs * σ.dev .total_needs = 0 := by linarith
      exact mul_self_eq_zero.mp hdd
    have hds100 : σ.dev .monthly_savings = 100 := by
      have hdd : σ.dev .monthly_savings * σ.dev .monthly_savings = 10000 := by linarith
      have hfac : (σ.dev .monthly_savings - 100) * (σ.dev .monthly_savings + 100) = 0 := by
        linear_combination hdd
      rcases mul_eq_zero.mp hfac with h | h
      · omega
      · omega
    have hdw100 : σ.dev .total_wants = -100 := by
      have hdd : σ.dev .total_wants * σ.dev .total_wants = 10000 := by linarith
      have hfac : (σ.dev .total_wants - 100) * (σ.dev .total_wants + 100) = 0 := by
        linear_combination hdd
      rcases mul_eq_zero.mp hfac with h | h
      · omega
      · omega
    refine ⟨by omega, by omega, by omega, by linarith⟩

/-- C1: whenever the optimizer returns a solution mapping (equivalently,
whenever the solver reports an assignment satisfying the model), every
category's effective allocation is a nonnegative integer multiple of its
step factor -- 10 for transport, 50 for every other category -- and lies in
`[0, income]`. -/
theorem claim1_step_multiples (inp : BudgetInput) (σ : Assign) (h : Feasible inp σ) :
    (factors .transport_expenditure = 10 ∧
      ∀ c, c ≠ Cat.transport_expenditure → factors c = 50) ∧
    ∀ c, (∃ k : ℤ, 0 ≤ k ∧ σ.alloc c = factors c * k) ∧
      0 ≤ σ.alloc c ∧ σ.alloc c ≤ inp.monthly_take_home := by
  obtain ⟨hu, ha, hf, _, _, _, _, _, _, _, _, _⟩ := h
  refine ⟨⟨by decide, fun c hc => ?_⟩, fun c => ⟨⟨σ.units c, (hu c).1, ?_⟩, (ha c).1, (ha c).2⟩⟩
  · unfold factors
    rw [if_neg hc]
  · rw [hf c]
    ring

/-- Witness for C1 at the reference input and assignment. -/
theorem claim1_step_multiples_witness :
    Feasible inp6 ref6 ∧
    ((factors .transport_expenditure = 10 ∧
        ∀ c, c ≠ Cat.transport_expenditure → factors c = 50) ∧
      ∀ c, (∃ k : ℤ, 0 ≤ k ∧ ref6.alloc c = factors c * k) ∧
        0 ≤ ref6.alloc c ∧ ref6.alloc c ≤ inp6.monthly_take_home) :=
  ⟨refFeasible, claim1_step_multiples inp6 ref6 refFeasible⟩

/-- C2: any returned solution satisfies both accounting identities exactly:
the five needs categories sum to `total_needs`, and
`total_needs + total_wants + monthly_savings` equals the input income. -/
theorem claim2_accounting_identities (inp : BudgetInput) (σ : Assign) (h : Feasible inp σ) :
    σ.alloc .transport_expenditure + σ.alloc .food_expenditure + σ.alloc .housing_expenditure +
      σ.alloc .insurance_expenditure + σ.alloc .other_needs_expenditure =
      σ.alloc .total_needs ∧
    σ.alloc .total_needs + σ.alloc .total_wants + σ.alloc .monthly_savings =
      inp.monthly_take_home := by
  obtain ⟨_, _, _, _, _, _, _, hns, htot, _, _, _⟩ := h
  constructor
  · simp only [needsCats, List.map_cons, List.map_nil, List.sum_cons, List.sum_nil] at hns
    linarith
  · exact htot

/-- Witness for C2 at the reference input and assignment. -/
theorem claim2_accounting_identities_witness :
    Feasible inp6 ref6 ∧
    (ref6.alloc .transport_expenditure + ref6.alloc .food_expenditure +
        ref6.alloc .housing_expenditure + ref6.alloc .insurance_expenditure +
        ref6.alloc .other_needs_expenditure = ref6.alloc .total_needs ∧
      ref6.alloc .total_needs + ref6.alloc .total_wants + ref6.alloc .monthly_savings =
        inp6.monthly_take_home) :=
  ⟨refFeasible, claim2_accounting_identities inp6 ref6 refFeasible⟩

/-- C3 (amended): for every nonnegative income below
`3 * 2 ^ 51 = 6755399441055744` the three float-computed hard-bound
constants equal the exact rational floors `floor(income/5)`,
`floor(income/2)` and `floor(3*income/10)`, and every returned solution
satisfies the three corresponding inequalities.  At income
`6755399441055744` the savings constant exceeds the exact floor (see the
counterexample). -/
theorem claim3_hard_bounds_floor (n : ℤ) (h0 : 0 ≤ n) (hn : n < 6755399441055744) :
    bound02 n = ⌊(n : ℚ) / 5⌋ ∧ bound05 n = ⌊(n : ℚ) / 2⌋ ∧
    bound03 n = ⌊3 * (n : ℚ) / 10⌋ ∧
    ∀ inp σ, inp.monthly_take_home = n → Feasible inp σ →
      ⌊(n : ℚ) / 5⌋ ≤ σ.alloc .monthly_savings ∧
      σ.alloc .total_needs ≤ ⌊(n : ℚ) / 2⌋ ∧
      σ.alloc .total_wants ≤ ⌊3 * (n : ℚ) / 10⌋ := by
  have h2 := bound02_exact n h0 hn
  have h5 := bound05_exact n h0 (by omega)
  have h3 := bound03_exact n h0 hn
  refine ⟨h2, h5, h3, fun inp σ hinc h => ?_⟩
  obtain ⟨_, _, _, _, _, _, _, _, _, hb2, hb5, hb3⟩ := h
  rw [hinc] at hb2 hb5 hb3
  exact ⟨h2 ▸ hb2, h5 ▸ hb5, h3 ▸ hb3⟩

/-- Witness for C3 at income 4000 with the reference solution. -/
theorem claim3_hard_bounds_floor_witness :
    (0 ≤ (4000 : ℤ) ∧ (4000 : ℤ) < 6755399441055744) ∧
    bound02 4000 = ⌊((4000 : ℤ) : ℚ) / 5⌋ ∧
    ⌊((4000 : ℤ) : ℚ) / 5⌋ ≤ ref6.alloc .monthly_savings :=
  ⟨⟨by norm_num, by norm_num⟩,
    (claim3_hard_bounds_floor 4000 (by norm_num) (by norm_num)).1,
    ((claim3_hard_bounds_floor 4000 (by norm_num) (by norm_num)).2.2.2 inp6 ref6 rfl
      refFeasible).1⟩

/-- C3 counterexample: at the nonnegative income `3 * 2 ^ 51` the
float-computed savings constant `int(0.2 * income)` differs from the exact
floor of `income / 5`, refuting the claim for every nonnegative income. -/
theorem claim3_float_counterexample :
    0 ≤ (6755399441055744 : ℤ) ∧
    bound02 6755399441055744 = 1351079888211149 ∧
    ⌊((6755399441055744 : ℤ) : ℚ) / 5⌋ = 1351079888211148 ∧
    bound02 6755399441055744 ≠ ⌊((6755399441055744 : ℤ) : ℚ) / 5⌋ := by
  have hfl : ⌊((6755399441055744 : ℤ) : ℚ) / 5⌋ = 1351079888211148 := by
    rw [show (((6755399441055744 : ℤ) : ℚ) / 5) = ((6755399441055744 : ℤ) : ℚ) / ((5 : ℕ) : ℚ)
      by norm_num, Rat.floor_intCast_div_natCast]
    decide
  refine ⟨by norm_num, bound02_at_threshold, hfl, ?_⟩
  rw [bound02_at_threshold, hfl]
  decide

/-- C4: the returned loss equals the weighted sum of squared deviations of
the returned allocation from the (derivation-completed) current allocation,
with each weight the positive integer `max(1, round(scale/(current+1)))`. -/
theorem claim4_loss_recomputed (inp : BudgetInput) (scale : ℤ) (σ : Assign)
    (h : Feasible inp σ) :
    lossOf inp scale σ =
      (Cat.all.map (fun c => weight inp scale c * (σ.alloc c - currentVal inp c) ^ 2)).sum ∧
    ∀ c, 1 ≤ weight inp scale c := by
  obtain ⟨_, _, _, _, hdev, _, hq, _, _, _, _, _⟩ := h
  constructor
  · unfold lossOf
    apply congrArg List.sum
    apply List.map_congr_left
    intro c _
    rw [hq c, hdev c]
    ring
  · intro c
    exact le_max_left 1 _

/-- Witness for C4 at the reference input and assignment. -/
theorem claim4_loss_recomputed_witness :
    Feasible inp6 ref6 ∧
    lossOf inp6 1000 ref6 =
      (Cat.all.map (fun c => weight inp6 1000 c * (ref6.alloc c - currentVal inp6 c) ^ 2)).sum ∧
    1 ≤ weight inp6 1000 .total_wants :=
  ⟨refFeasible, (claim4_loss_recomputed inp6 1000 ref6 refFeasible).1,
    (claim4_loss_recomputed inp6 1000 ref6 refFeasible).2 .total_wants⟩

/-- C5: the function returns exactly one of two shapes -- on OPTIMAL or
FEASIBLE the pair of the full allocation mapping and the integer loss, and
on every other status the explicit no-solution signal.  The return is a
total function of the status (no exception path). -/
theorem claim5_return_shape (inp : BudgetInput) (scale : ℤ) (st : CpStatus) (σ : Assign) :
    ((st = CpStatus.OPTIMAL ∨ st = CpStatus.FEASIBLE) →
      optimizeReturn inp scale st σ = some (σ.alloc, lossOf inp scale σ)) ∧
    ((st ≠ CpStatus.OPTIMAL ∧ st ≠ CpStatus.FEASIBLE) →
      optimizeReturn inp scale st σ = none) := by
  constructor
  · intro h
    unfold optimizeReturn
    rw [if_pos h]
  · intro h
    unfold optimizeReturn
    rw [if_neg (fun hc => hc.elim h.1 h.2)]

/-- Witness for C5: an OPTIMAL status yields the solution pair, an
INFEASIBLE status yields the no-solution signal. -/
theorem claim5_return_shape_witness :
    optimizeReturn inp6 1000 CpStatus.OPTIMAL ref6 =
      some (ref6.alloc, lossOf inp6 1000 ref6) ∧
    optimizeReturn inp6 1000 CpStatus.INFEASIBLE ref6 = none :=
  ⟨(claim5_return_shape inp6 1000 CpStatus.OPTIMAL ref6).1 (Or.inl rfl),
    (claim5_return_shape inp6 1000 CpStatus.INFEASIBLE ref6).2 ⟨by decide, by decide⟩⟩

/-- C6: on the reference input (income 4000 and the documented current
allocations; extra non-budget dict keys are never read), the model is
feasible and any loss-minimizing solution -- which a complete solver
reports as OPTIMAL -- has `monthly_savings = 800`, `total_needs = 2000`,
`total_wants = 1200` and total weighted loss 20000. -/
theorem claim6_reference_run (σ : Assign) (h : Feasible inp6 σ)
    (hopt : ∀ τ, Feasible inp6 τ → lossOf inp6 1000 σ ≤ lossOf inp6 1000 τ) :
    σ.alloc .monthly_savings = 800 ∧ σ.alloc .total_needs = 2000 ∧
    σ.alloc .total_wants = 1200 ∧ lossOf inp6 1000 σ = 20000 := by
  have hub : lossOf inp6 1000 σ ≤ 20000 := by
    have h1 := hopt ref6 refFeasible
    rw [loss6_ref] at h1
    exact h1
  have h2 := (loss6_lower σ h).2 hub
  exact ⟨h2.1, h2.2.1, h2.2.2.1, h2.2.2.2⟩

/-- Witness for C6: the reference assignment is feasible, optimal, and has
the documented savings, needs, wants and loss values. -/
theorem claim6_reference_run_witness :
    Feasible inp6 ref6 ∧
    ref6.alloc .monthly_savings = 800 ∧ ref6.alloc .total_needs = 2000 ∧
    ref6.alloc .total_wants = 1200 ∧ lossOf inp6 1000 ref6 = 20000 :=
  ⟨refFeasible,
    claim6_reference_run ref6 refFeasible (fun τ ht => by
      rw [loss6_ref]
      exact (loss6_lower τ ht).1)⟩

/-- C7 (amended): on an input with income 0 **and all supplied current
allocations 0**, the model is feasible (the all-zero assignment satisfies
it), every feasible assignment allocates 0 to every category with loss 0,
and a complete solver therefore returns this solution rather than the
no-solution signal.  With any nonzero supplied allocation the deviation
variable bounds `[-0, 0]` make the model infeasible (see the
counterexample). -/
theorem claim7_income_zero (inp : BudgetInput) (scale : ℤ)
    (hI : inp.monthly_take_home = 0)
    (hz : inp.transport_expenditure = 0 ∧ inp.food_expenditure = 0 ∧
      inp.housing_expenditure = 0 ∧ inp.insurance_expenditure = 0 ∧
      inp.other_needs_expenditure = 0 ∧ inp.investment_expenditure = 0 ∧
      inp.monthly_savings = 0) :
    Feasible inp zeroAssign ∧
    (∀ σ, Feasible inp σ → (∀ c, σ.alloc c = 0) ∧ lossOf inp scale σ = 0) ∧
    (∀ st σ, ((st = CpStatus.OPTIMAL ∨ st = CpStatus.FEASIBLE) ↔ ∃ τ, Feasible inp τ) →
      ((st = CpStatus.OPTIMAL ∨ st = CpStatus.FEASIBLE) → Feasible inp σ) →
      ∃ pr, optimizeReturn inp scale st σ = some pr ∧ (∀ c, pr.1 c = 0) ∧ pr.2 = 0) := by
  obtain ⟨h1, h2, h3, h4, h5, h6, h7⟩ := hz
  have hinp : inp = inp7ok := by
    cases inp
    simp_all [inp7ok]
  subst hinp
  have hb2 : bound02 (0 : ℤ) = 0 := by
    have h := bound02_exact 0 le_rfl (by norm_num)
    simpa using h
  have hb5 : bound05 (0 : ℤ) = 0 := by
    have h := bound05_exact 0 le_rfl (by norm_num)
    simpa using h
  have hb3 : bound03 (0 : ℤ) = 0 := by
    have h := bound03_exact 0 le_rfl (by norm_num)
    simpa using h
  have hfeas : Feasible inp7ok zeroAssign := by
    show FeasibleWith (bound02 0) (bound05 0) (bound03 0) inp7ok zeroAssign
    rw [hb2, hb5, hb3]
    decide
  have hzero : ∀ σ, Feasible inp7ok σ → (∀ c, σ.alloc c = 0) ∧ lossOf inp7ok scale σ = 0 := by
    intro σ hσ
    obtain ⟨hu, ha, hf, hdb, hd, hqb, hq, hns, htot, _, _, _⟩ := hσ
    have hquad0 : ∀ c, σ.quad c = 0 := by
      intro c
      have hb := hqb c
      simp [inp7ok] at hb
      omega
    refine ⟨fun c => ?_, ?_⟩
    · have hb := ha c
      simp [inp7ok] at hb
      omega
    · unfold lossOf
      simp [hquad0]
  refine ⟨hfeas, hzero, fun st σ hiff hsound => ?_⟩
  have hsat : st = CpStatus.OPTIMAL ∨ st = CpStatus.FEASIBLE := hiff.mpr ⟨zeroAssign, hfeas⟩
  refine ⟨(σ.alloc, lossOf inp7ok scale σ), ?_, (hzero σ (hsound hsat)).1,
    (hzero σ (hsound hsat)).2⟩
  unfold optimizeReturn
  rw [if_pos hsat]

/-- Witness for C7 at the all-zero input. -/
theorem claim7_income_zero_witness :
    Feasible inp7ok zeroAssign ∧
    (∀ c, zeroAssign.alloc c = 0) ∧ lossOf inp7ok 1000 zeroAssign = 0 :=
  ⟨(claim7_income_zero inp7ok 1000 rfl
      ⟨rfl, rfl, rfl, rfl, rfl, rfl, rfl⟩).1,
    ((claim7_income_zero inp7ok 1000 rfl ⟨rfl, rfl, rfl, rfl, rfl, rfl, rfl⟩).2.1 zeroAssign
      (claim7_income_zero inp7ok 1000 rfl ⟨rfl, rfl, rfl, rfl, rfl, rfl, rfl⟩).1)⟩

/-- C7 counterexample: income 0 with a nonzero supplied allocation (food
100) makes the model infeasible -- the claim fails for this input mapping
with `monthly_take_home = 0`, since no feasible solution can be returned. -/
theorem claim7_income_zero_counterexample :
    inp7c.monthly_take_home = 0 ∧ ¬ ∃ σ, Feasible inp7c σ := by
  refine ⟨rfl, ?_⟩
  rintro ⟨σ, hu, ha, hf, hdb, hd, hqb, hq, _, _, _, _, _⟩
  have h1 := hd Cat.food_expenditure
  have h2 := (hdb Cat.food_expenditure).1
  have h3 := (ha Cat.food_expenditure).2
  have h4 := (ha Cat.food_expenditure).1
  simp [currentVal, inp7c] at h1 h2 h3
  omega

/-- C8 (amended): for nonnegative supplied allocations and income, the
weight divisor `current + 1` is nonzero for the seven supplied categories
and for `total_needs`; for `total_wants` it is nonzero provided the derived
`income - total_needs - monthly_savings` is not -1 (which nonnegativity of
the inputs alone does not rule out; see the counterexample). -/
theorem claim8_divisor_nonzero (inp : BudgetInput)
    (h1 : 0 ≤ inp.transport_expenditure) (h2 : 0 ≤ inp.food_expenditure)
    (h3 : 0 ≤ inp.housing_expenditure) (h4 : 0 ≤ inp.insurance_expenditure)
    (h5 : 0 ≤ inp.other_needs_expenditure) (h6 : 0 ≤ inp.investment_expenditure)
    (h7 : 0 ≤ inp.monthly_savings) (hI : 0 ≤ inp.monthly_take_home)
    (hw : inp.monthly_take_home - needsSum inp - inp.monthly_savings ≠ -1) :
    ∀ c, currentVal inp c + 1 ≠ 0 := by
  intro c
  unfold needsSum at hw
  cases c <;> simp [currentVal, needsSum] <;> omega

/-- Witness for C8 at the reference input. -/
theorem claim8_divisor_nonzero_witness :
    currentVal inp6 .total_wants + 1 ≠ 0 :=
  claim8_divisor_nonzero inp6 (by decide) (by decide) (by decide) (by decide) (by decide)
    (by decide) (by decide) (by decide) (by decide) Cat.total_wants

/-- C8 counterexample: the all-nonnegative input with income 0 and savings
1 derives `total_wants = -1`, so the weight divisor for `total_wants` is
zero and Python's `scale / (current_val + 1)` raises ZeroDivisionError --
the claimed impossibility of the `value = -1` edge case is false. -/
theorem claim8_divisor_zero_counterexample :
    0 ≤ inp8c.transport_expenditure ∧ 0 ≤ inp8c.food_expenditure ∧
    0 ≤ inp8c.housing_expenditure ∧ 0 ≤ inp8c.insurance_expenditure ∧
    0 ≤ inp8c.other_needs_expenditure ∧ 0 ≤ inp8c.investment_expenditure ∧
    0 ≤ inp8c.monthly_savings ∧ 0 ≤ inp8c.monthly_take_home ∧
    currentVal inp8c .total_wants + 1 = 0 := by
  decide

/-- C9 (amended): a call leaves every key of the caller's
`current_allocations` dict unchanged **except** `total_needs` and
`total_wants`, which it adds or overwrites with the derived values; no
state is carried across calls (the post-state is a pure function of the
pre-state). -/
theorem claim9_mutation_two_keys (m : PyDict) (k : String)
    (h1 : k ≠ "total_needs") (h2 : k ≠ "total_wants") :
    afterOptimize m k = m k ∧
    afterOptimize m "total_needs" = some (dNeedsSum m) ∧
    afterOptimize m "total_wants" =
      some (dget m "monthly_take_home" - dNeedsSum m - dget m "monthly_savings") := by
  refine ⟨?_, ?_, ?_⟩
  · simp [afterOptimize, dset, h1, h2]
  · simp [afterOptimize, dset]
  · simp [afterOptimize, dset]

/-- Witness for C9 at the empty dict and an unrelated key. -/
theorem claim9_mutation_two_keys_witness :
    afterOptimize emptyDict "age" = emptyDict "age" ∧
    afterOptimize emptyDict "total_needs" = some (dNeedsSum emptyDict) ∧
    afterOptimize emptyDict "total_wants" =
      some (dget emptyDict "monthly_take_home" - dNeedsSum emptyDict -
        dget emptyDict "monthly_savings") :=
  claim9_mutation_two_keys emptyDict "age" (by decide) (by decide)

/-- C9 counterexample: calling the optimizer on a dict without a
`total_needs` key adds that key to the caller's mapping, so the input
mapping does not hold exactly the same keys and values after the call. -/
theorem claim9_mutation_counterexample :
    afterOptimize emptyDict "total_needs" ≠ emptyDict "total_needs" := by
  simp [afterOptimize, dset, emptyDict, dNeedsSum, dget]

/-- C10: with nonnegative income, any input in which some directly supplied
category's current value exceeds `2 * income` makes the model infeasible
(the deviation bounds `[-income, income]` cannot hold), so the function
returns the no-solution signal. -/
theorem claim10_oversized_current_infeasible (inp : BudgetInput) (c : Cat)
    (hc : c ∈ suppliedCats) (hI : 0 ≤ inp.monthly_take_home)
    (hbig : 2 * inp.monthly_take_home < currentVal inp c) :
    (∀ σ, ¬ Feasible inp σ) ∧
    ∀ scale st σ, ((st = CpStatus.OPTIMAL ∨ st = CpStatus.FEASIBLE) → Feasible inp σ) →
      optimizeReturn inp scale st σ = none := by
  have hnot : ∀ σ, ¬ Feasible inp σ := by
    intro σ h
    obtain ⟨hu, ha, hf, hdb, hd, _, _, _, _, _, _, _⟩ := h
    have h1 := hd c
    have h2 := (hdb c).1
    have h3 := (ha c).2
    omega
  refine ⟨hnot, fun scale st σ hsound => ?_⟩
  unfold optimizeReturn
  rw [if_neg]
  intro hsat
  exact hnot σ (hsound hsat)

/-- Witness for C10: income 100 with supplied food value 300 (which exceeds
twice the income) is infeasible and returns the no-solution signal. -/
theorem claim10_oversized_current_infeasible_witness :
    ¬ Feasible inp10 zeroAssign ∧
    optimizeReturn inp10 1000 CpStatus.INFEASIBLE zeroAssign = none :=
  ⟨(claim10_oversized_current_infeasible inp10 Cat.food_expenditure (by decide) (by decide)
      (by decide)).1 zeroAssign,
    (claim10_oversized_current_infeasible inp10 Cat.food_expenditure (by decide) (by decide)
      (by decide)).2 1000 CpStatus.INFEASIBLE zeroAssign
      (fun h => absurd h (by decide))⟩
